import Mathlib

/-!
# Meeting backend: storage layer and create handler

A shallow embedding of `handlers/src/user_meeting.cpp`:

* `Meeting`, `to_json`, `from_json`;
* `MapStorage` over a model of `std::map<int, Meeting>` (a key-sorted
  association list, so iteration is in ascending key order and a key occurs
  at most once);
* `SqliteStorage` over a model of the `meeting` table created in
  `Server::main`;
* `UserMeetingCreate::HandleRestRequest`.

Values of the C++ type `int` are carried as `Int`.  The only integer conversion
in the code, `int id = m_meetings.size()`, narrows a `size_t` to a 32-bit
`int`; it is modelled by `narrowToInt`, which wraps modulo `2^32` into
`[-2^31, 2^31)`.
-/

set_option linter.unusedVariables false

namespace handlers

/-! ## The entity -/

/-- The record `struct Meeting`; `id` is a `std::optional<int>`. -/
structure Meeting where
  id : Option Int
  name : String
  description : String
  address : String
  published : Bool
deriving DecidableEq, Repr

/-- A value-initialised `Meeting`, as made by `Meeting()` and by
`std::map::operator[]` for a missing key: no id, empty strings, `false`. -/
def Meeting.zero : Meeting := ⟨none, "", "", "", false⟩

/-! ## Model of `std::map<int, Meeting>` -/

/-- Strictly ascending keys: the representation invariant of the ordered map. -/
def KeysAscending (l : List (Int × Meeting)) : Prop :=
  l.Pairwise (fun a b => a.1 < b.1)

/-- Linear search for a key, the list counterpart of `std::map::find`. -/
def findEntry (k : Int) : List (Int × Meeting) → Option Meeting
  | [] => none
  | (k', v) :: t => if k' = k then some v else findEntry k t

/-- Ordered insertion that overwrites the value of an existing key:
the effect of `m[k] = v`. -/
def assignEntry (k : Int) (v : Meeting) : List (Int × Meeting) → List (Int × Meeting)
  | [] => [(k, v)]
  | (k', v') :: t =>
    if k < k' then (k, v) :: (k', v') :: t
    else if k = k' then (k, v) :: t
    else (k', v') :: assignEntry k v t

/-- Removal of the entry of a key, the effect of `std::map::erase(key)`. -/
def eraseEntry (k : Int) : List (Int × Meeting) → List (Int × Meeting)
  | [] => []
  | (k', v') :: t => if k' = k then t else (k', v') :: eraseEntry k t

theorem assignEntry_lower (k : Int) (v : Meeting) (c : Int) :
    ∀ (l : List (Int × Meeting)), c < k → (∀ e ∈ l, c < e.1) →
      ∀ e ∈ assignEntry k v l, c < e.1 := by
  intro l
  induction l with
  | nil =>
    intro hc _ e he
    simp [assignEntry] at he
    subst he
    exact hc
  | cons hd t ih =>
    obtain ⟨k', v'⟩ := hd
    intro hc hl e he
    unfold assignEntry at he
    split_ifs at he with h1 h2
    · rcases List.mem_cons.mp he with rfl | he'
      · exact hc
      · exact hl e he'
    · rcases List.mem_cons.mp he with rfl | he'
      · exact hc
      · exact hl e (List.mem_cons_of_mem _ he')
    · rcases List.mem_cons.mp he with rfl | he'
      · exact hl _ (List.mem_cons_self _ _)
      · exact ih hc (fun e he => hl e (List.mem_cons_of_mem _ he)) e he'

theorem assignEntry_ascending (k : Int) (v : Meeting) :
    ∀ (l : List (Int × Meeting)), KeysAscending l → KeysAscending (assignEntry k v l) := by
  intro l
  induction l with
  | nil =>
    intro _
    simp [assignEntry, KeysAscending]
  | cons hd t ih =>
    obtain ⟨k', v'⟩ := hd
    intro hl
    have hl' := List.pairwise_cons.mp hl
    unfold assignEntry
    split_ifs with h1 h2
    · refine List.pairwise_cons.mpr ⟨?_, hl⟩
      intro e he
      rcases List.mem_cons.mp he with rfl | he'
      · exact h1
      · exact lt_trans h1 (hl'.1 e he')
    · subst h2
      exact List.pairwise_cons.mpr ⟨hl'.1, hl'.2⟩
    · have hlt : k' < k := by omega
      refine List.pairwise_cons.mpr ⟨?_, ih hl'.2⟩
      exact assignEntry_lower k v k' t hlt hl'.1

theorem eraseEntry_subset (k : Int) :
    ∀ (l : List (Int × Meeting)), ∀ e ∈ eraseEntry k l, e ∈ l := by
  intro l
  induction l with
  | nil => intro e he; simp [eraseEntry] at he
  | cons hd t ih =>
    obtain ⟨k', v'⟩ := hd
    intro e he
    unfold eraseEntry at he
    split_ifs at he with h1
    · exact List.mem_cons_of_mem _ he
    · rcases List.mem_cons.mp he with rfl | he'
      · exact List.mem_cons_self _ _
      · exact List.mem_cons_of_mem _ (ih e he')

theorem eraseEntry_ascending (k : Int) :
    ∀ (l : List (Int × Meeting)), KeysAscending l → KeysAscending (eraseEntry k l) := by
  intro l
  induction l with
  | nil => intro _; simp [eraseEntry, KeysAscending]
  | cons hd t ih =>
    obtain ⟨k', v'⟩ := hd
    intro hl
    have hl' := List.pairwise_cons.mp hl
    unfold eraseEntry
    split_ifs with h1
    · exact hl'.2
    · refine List.pairwise_cons.mpr ⟨?_, ih hl'.2⟩
      intro e he
      exact hl'.1 e (eraseEntry_subset k t e he)

/-- The container `std::map<int, Meeting>` (`MapStorage::MeetingMap`). -/
structure MeetingMap where
  entries : List (Int × Meeting)
  ascending : KeysAscending entries

namespace MeetingMap

/-- A default-constructed map. -/
def empty : MeetingMap := ⟨[], List.Pairwise.nil⟩

/-- The member `size()`. -/
def size (m : MeetingMap) : Nat := m.entries.length

/-- The test `find(id) != end()`. -/
def contains (m : MeetingMap) (k : Int) : Bool := (findEntry k m.entries).isSome

/-- The assignment `m[k] = v`. -/
def assign (m : MeetingMap) (k : Int) (v : Meeting) : MeetingMap :=
  ⟨assignEntry k v m.entries, assignEntry_ascending k v m.entries m.ascending⟩

/-- The member `erase(k)`. -/
def erase (m : MeetingMap) (k : Int) : MeetingMap :=
  ⟨eraseEntry k m.entries, eraseEntry_ascending k m.entries m.ascending⟩

/-- The read `m[k]` on a non-const map: a missing key is first inserted with a
value-initialised `Meeting`. -/
def index (m : MeetingMap) (k : Int) : MeetingMap × Meeting :=
  match findEntry k m.entries with
  | some v => (m, v)
  | none => (m.assign k Meeting.zero, Meeting.zero)

end MeetingMap

/-! ## `MapStorage` -/

/-- The conversion of a `size_t` to a 32-bit `int`, as in
`int id = m_meetings.size()`: the value modulo `2^32`, taken in
`[-2^31, 2^31)`. -/
def narrowToInt (n : Nat) : Int :=
  if n % 4294967296 < 2147483648 then ((n % 4294967296 : Nat) : Int)
  else ((n % 4294967296 : Nat) : Int) - 4294967296

/-- The class `MapStorage`: its only member is `m_meetings`. -/
structure MapStorage where
  m_meetings : MeetingMap

namespace MapStorage

/-- A freshly constructed `MapStorage`. -/
def empty : MapStorage := ⟨MeetingMap.empty⟩

/-- The private helper `MeetingInMap`. -/
def MeetingInMap (s : MapStorage) (id : Int) : Bool :=
  s.m_meetings.contains id

/-- The method `Save`.  The argument is passed by reference, so the meeting as
it stands after the call is returned next to the new state. -/
def Save (s : MapStorage) (meeting : Meeting) : MapStorage × Meeting :=
  match meeting.id with
  | some k => (⟨s.m_meetings.assign k meeting⟩, meeting)
  | none =>
    let id : Int := narrowToInt s.m_meetings.size
    let meeting : Meeting := { meeting with id := some id }
    (⟨s.m_meetings.assign id meeting⟩, meeting)

/-- The method `GetList`: every value of the map, in iteration order. -/
def GetList (s : MapStorage) : List Meeting :=
  s.m_meetings.entries.map Prod.snd

/-- The method `Get`: the state after the call (the method is not `const` and
reads through `m_meetings[id]`) and the returned optional. -/
def Get (s : MapStorage) (id : Int) : MapStorage × Option Meeting :=
  if s.MeetingInMap id then
    let r := s.m_meetings.index id
    (⟨r.1⟩, some r.2)
  else (s, none)

/-- The method `Delete`: the new state and the returned flag. -/
def Delete (s : MapStorage) (id : Int) : MapStorage × Bool :=
  if s.MeetingInMap id then (⟨s.m_meetings.erase id⟩, true) else (s, false)

/-- The state after a sequence of `Save` calls, with the meetings as they stand
after their call, in call order. -/
def saveAll : MapStorage → List Meeting → MapStorage × List Meeting
  | s, [] => (s, [])
  | s, m :: ms =>
    let r := s.Save m
    let rest := saveAll r.1 ms
    (rest.1, r.2 :: rest.2)

end MapStorage

/-- A call on a `MapStorage` that may change it. -/
inductive MapOp where
  | save (meeting : Meeting)
  | delete (id : Int)
deriving DecidableEq, Repr

/-- The state after one call. -/
def MapOp.apply (s : MapStorage) : MapOp → MapStorage
  | .save meeting => (s.Save meeting).1
  | .delete id => (s.Delete id).1

/-- The state after a sequence of calls, first call first. -/
def MapStorage.run (s : MapStorage) (ops : List MapOp) : MapStorage :=
  ops.foldl MapOp.apply s

/-! ## Model of the `meeting` table -/

/-- A row of the table `meeting` created in `Server::main`:
`id INTEGER PRIMARY KEY AUTOINCREMENT, name TEXT UNIQUE NOT NULL,
description TEXT NOT NULL, address TEXT NOT NULL, published INTEGER NOT NULL`. -/
structure Row where
  id : Int
  name : String
  description : String
  address : String
  published : Bool
deriving DecidableEq, Repr

/-- The exception type `Poco::Exception`, reduced to its display text. -/
structure PocoException where
  displayText : String
deriving DecidableEq, Repr

/-- The state behind a `Poco::Data::Session` on `sample.db`: the rows of
`meeting` in rowid order and the largest rowid handed out so far (what
`AUTOINCREMENT` keeps in `sqlite_sequence`). -/
structure Session where
  rows : List Row
  seq : Int
deriving DecidableEq, Repr

namespace Session

/-- The table right after `Server::main` has recreated it. -/
def fresh : Session := ⟨[], 0⟩

/-- The statement `INSERT INTO meeting (name, description, address, published)
VALUES (...)`: refused when the name is taken (`UNIQUE`), otherwise a row
with the next rowid is added. -/
def insert (s : Session) (name description address : String) (published : Bool) :
    Except PocoException Session :=
  if s.rows.any (fun r => decide (r.name = name)) then
    .error ⟨"UNIQUE constraint failed: meeting.name"⟩
  else
    .ok ⟨s.rows ++ [⟨s.seq + 1, name, description, address, published⟩], s.seq + 1⟩

/-- The statement `UPDATE meeting SET name = .., description = .., address = ..,
published = .. WHERE id = ..`: refused when a row is matched and another row
holds the name; zero matched rows is not an error. -/
def update (s : Session) (name description address : String) (published : Bool) (id : Int) :
    Except PocoException Session :=
  if s.rows.any (fun r => decide (r.id = id)) &&
      s.rows.any (fun r => decide (r.id ≠ id) && decide (r.name = name)) then
    .error ⟨"UNIQUE constraint failed: meeting.name"⟩
  else
    .ok ⟨s.rows.map (fun r =>
      if r.id = id then ⟨id, name, description, address, published⟩ else r), s.seq⟩

/-- The statement `DELETE FROM meeting WHERE id = ..`. -/
def delete (s : Session) (id : Int) : Session :=
  ⟨s.rows.filter (fun r => decide (r.id ≠ id)), s.seq⟩

/-- The statement `SELECT id, name, description, address, published FROM meeting`
under `limit(n)`. -/
def select (s : Session) (n : Nat) : List Row :=
  s.rows.take n

end Session

/-! ## `SqliteStorage` -/

/-- The class `SqliteStorage`: its only member is `m_session`. -/
structure SqliteStorage where
  m_session : Session
deriving DecidableEq, Repr

namespace SqliteStorage

/-- The method `Save`.  Both statements only bind the fields with `use`, so the
meeting passed by reference comes back as it went in; a failing statement
raises. -/
def Save (s : SqliteStorage) (meeting : Meeting) : Except PocoException (SqliteStorage × Meeting) :=
  match meeting.id with
  | some id =>
    match s.m_session.update meeting.name meeting.description meeting.address
        meeting.published id with
    | .ok session => .ok (⟨session⟩, meeting)
    | .error exc => .error exc
  | none =>
    match s.m_session.insert meeting.name meeting.description meeting.address
        meeting.published with
    | .ok session => .ok (⟨session⟩, meeting)
    | .error exc => .error exc

/-- The method `Get`.  The statement has no `WHERE` clause; under `limit(1)` it
extracts the first row of the table, if any, into the local `get_id` and into
the four data fields of the local `meeting`.  The test that follows reads
`meeting.id`, which no `into` writes.  The local `meeting` starts without an
id and with empty strings; its `published` is not initialised in the code and
is `false` here. -/
def Get (s : SqliteStorage) (id : Int) : Option Meeting :=
  let meeting : Meeting := Meeting.zero
  let get_id : Int := 0
  let extracted : Int × Meeting :=
    match s.m_session.select 1 with
    | r :: _ => (r.id, { meeting with name := r.name, description := r.description,
                                      address := r.address, published := r.published })
    | [] => (get_id, meeting)
  let get_id := extracted.1
  let meeting := extracted.2
  if meeting.id.isSome then
    some { meeting with id := some get_id }
  else none

/-- The method `Delete`: the new state and the returned flag. -/
def Delete (s : SqliteStorage) (id : Int) : SqliteStorage × Bool :=
  if (s.Get id).isSome then (⟨s.m_session.delete id⟩, false) else (s, false)

end SqliteStorage

/-! ## JSON conversion -/

/-- A parsed `nlohmann::json` value. -/
inductive Json where
  | null
  | boolean (b : Bool)
  | number (n : Int)
  | string (s : String)
  | array (items : List Json)
  | object (members : List (String × Json))

/-- The exception type `json::exception`, reduced to its two kinds met here. -/
inductive JsonException where
  | type_error
  | out_of_range
deriving DecidableEq, Repr

namespace Json

/-- The member `at(key)` (`at` is reserved here): only an object can be indexed by a key, and the key
has to be there. -/
def atKey (j : Json) (key : String) : Except JsonException Json :=
  match j with
  | .object members =>
    match members.lookup key with
    | some v => .ok v
    | none => .error .out_of_range
  | _ => .error .type_error

/-- The member `get_to` on a `std::string`. -/
def get_string : Json → Except JsonException String
  | .string s => .ok s
  | _ => .error .type_error

/-- The member `get_to` on a `bool`. -/
def get_bool : Json → Except JsonException Bool
  | .boolean b => .ok b
  | _ => .error .type_error

end Json

/-- The failure of `std::optional::value()` on an empty optional. -/
inductive BadOptionalAccess where
  | bad_optional_access
deriving DecidableEq, Repr

/-- The function `to_json`: `m.id.value()` raises when the id is absent. -/
def to_json (m : Meeting) : Except BadOptionalAccess Json :=
  match m.id with
  | some id =>
    .ok (.object [("id", .number id), ("name", .string m.name),
      ("description", .string m.description), ("address", .string m.address),
      ("published", .boolean m.published)])
  | none => .error .bad_optional_access

/-- The function `from_json`: the four data fields are read in order into `m`;
`m.id` is left alone. -/
def from_json (j : Json) (m : Meeting) : Except JsonException Meeting :=
  match j.atKey "name" with
  | .error e => .error e
  | .ok jn =>
  match jn.get_string with
  | .error e => .error e
  | .ok name =>
  match j.atKey "description" with
  | .error e => .error e
  | .ok jd =>
  match jd.get_string with
  | .error e => .error e
  | .ok description =>
  match j.atKey "address" with
  | .error e => .error e
  | .ok ja =>
  match ja.get_string with
  | .error e => .error e
  | .ok address =>
  match j.atKey "published" with
  | .error e => .error e
  | .ok jp =>
  match jp.get_bool with
  | .error e => .error e
  | .ok published =>
    .ok { m with name := name, description := description, address := address,
                 published := published }

/-- The conversion `meeting = j`, which is `j.get<Meeting>()`: `from_json` on a
value-initialised `Meeting`. -/
def Json.toMeeting (j : Json) : Except JsonException Meeting :=
  from_json j Meeting.zero

/-! ## The create handler -/

/-- The status codes the handlers set. -/
inductive HTTPStatus where
  | HTTP_OK
  | HTTP_CREATED
  | HTTP_NO_CONTENT
  | HTTP_BAD_REQUEST
  | HTTP_NOT_FOUND
deriving DecidableEq, Repr

/-- What a handler streams after `send()`. -/
inductive Body where
  | text (s : String)
  | json (j : Json)

/-- The observable part of a `Poco::Net::HTTPServerResponse`: the status
currently set, the status that went out with the header when `send()` was
called, and the body streamed after it. -/
structure HTTPServerResponse where
  status : HTTPStatus
  sent : Option HTTPStatus
  body : Option Body

namespace HTTPServerResponse

/-- A response as the server hands it to a handler: `200 OK`, nothing sent. -/
def fresh : HTTPServerResponse := ⟨.HTTP_OK, none, none⟩

/-- The member `setStatusAndReason(status)`. -/
def setStatusAndReason (r : HTTPServerResponse) (status : HTTPStatus) : HTTPServerResponse :=
  { r with status := status }

/-- The member `send()`: the header goes out with the status set at this point. -/
def send (r : HTTPServerResponse) : HTTPServerResponse :=
  { r with sent := some r.status }

/-- Streaming a body into the stream returned by `send()`. -/
def write (r : HTTPServerResponse) (b : Body) : HTTPServerResponse :=
  { r with body := some b }

end HTTPServerResponse

/-- The `Save` entry of the interface `Storage`, as an implementation over a
state type offers it: the state and the meeting after the call, or the
`Poco::Exception` raised. -/
abbrev StorageSave (σ : Type) : Type :=
  σ → Meeting → Except PocoException (σ × Meeting)

/-- The `Save` of `MapStorage` behind the interface; it never raises. -/
def MapStorage.asSave : StorageSave MapStorage :=
  fun s meeting => .ok (s.Save meeting)

/-- The `Save` of `SqliteStorage` behind the interface; `GetStorage()` returns
this implementation. -/
def SqliteStorage.asSave : StorageSave SqliteStorage :=
  fun s meeting => s.Save meeting

/-- How a handler call ends: the storage and the response after it, and the
exception that left the handler, if one did. -/
structure HandlerResult (σ : Type) where
  storage : σ
  response : HTTPServerResponse
  uncaught : Option BadOptionalAccess

/-- The method `UserMeetingCreate::HandleRestRequest`, from the parsed body `j`
on.  `json::parse` with its default arguments raises on malformed text and
never yields a discarded value, so the `is_discarded` branch is not taken.
In `response.send() << json(meeting)` the left operand is evaluated first. -/
def UserMeetingCreate.HandleRestRequest {σ : Type} (Save : StorageSave σ) (storage : σ)
    (j : Json) (response : HTTPServerResponse) : HandlerResult σ :=
  match j.toMeeting with
  | .error _ =>
    let response := response.setStatusAndReason .HTTP_BAD_REQUEST
    let response := (response.send).write (.text "Bad meeting parameters")
    ⟨storage, response, none⟩
  | .ok meeting =>
    let saved : σ × Meeting × HTTPServerResponse :=
      match Save storage meeting with
      | .ok r => (r.1, r.2, response)
      | .error _ => (storage, meeting, response.setStatusAndReason .HTTP_BAD_REQUEST)
    let storage := saved.1
    let meeting := saved.2.1
    let response := saved.2.2
    let response := response.setStatusAndReason .HTTP_CREATED
    let response := response.send
    match to_json meeting with
    | .ok body => ⟨storage, response.write (.json body), none⟩
    | .error e => ⟨storage, response, some e⟩

/-- The keys and the stored ids agree. -/
def IdsMatch (l : List (Int × Meeting)) : Prop :=
  ∀ e ∈ l, e.2.id = some e.1

/-- The meetings `ms` keyed and stamped with the consecutive ids `n`, `n + 1`, ... -/
def stamped : Nat → List Meeting → List (Int × Meeting)
  | _, [] => []
  | n, m :: ms => ((n : Int), { m with id := some (n : Int) }) :: stamped (n + 1) ms

/-! ## Sample data -/

/-- A meeting as a client posts it. -/
def kickoff : Meeting := ⟨none, "Kickoff", "intro", "HQ", false⟩

/-- A second meeting. -/
def retro : Meeting := ⟨none, "Retro", "look back", "HQ", true⟩

/-- A third meeting. -/
def planning : Meeting := ⟨none, "Planning", "next sprint", "Annex", false⟩

/-- Sixty id-less meetings with pairwise different names. -/
def sixtyMeetings : List Meeting :=
  (List.range 60).map (fun i => ⟨none, String.mk (List.replicate (i + 1) 'm'), "", "", false⟩)

/-- One create more than a 32-bit `int` has non-negative values: `2^31 + 1`
id-less meetings. -/
def overflowMeetings : List Meeting :=
  List.replicate 2147483648 kickoff ++ [kickoff]

/-- A `SqliteStorage` whose table holds `kickoff` as its only row, under id 1. -/
def oneRowStorage : SqliteStorage := ⟨⟨[⟨1, "Kickoff", "intro", "HQ", false⟩], 1⟩⟩

/-- The body `{"name":"Kickoff","description":"intro","address":"HQ","published":false}`. -/
def kickoffJson : Json :=
  .object [("name", .string "Kickoff"), ("description", .string "intro"),
    ("address", .string "HQ"), ("published", .boolean false)]

/-! ## Facts about the map model -/

theorem MeetingMap.eq_of_entries {a b : MeetingMap} (h : a.entries = b.entries) : a = b := by
  cases a
  cases b
  simp only at h
  subst h
  rfl

theorem findEntry_mem (k : Int) (v : Meeting) :
    ∀ (l : List (Int × Meeting)), findEntry k l = some v → (k, v) ∈ l := by
  intro l
  induction l with
  | nil => intro h; simp [findEntry] at h
  | cons hd t ih =>
    obtain ⟨k', v'⟩ := hd
    intro h
    unfold findEntry at h
    split_ifs at h with h1
    · subst h1
      cases h
      exact List.mem_cons_self _ _
    · exact List.mem_cons_of_mem _ (ih h)

theorem findEntry_eq_none (k : Int) :
    ∀ (l : List (Int × Meeting)), findEntry k l = none ↔ ∀ e ∈ l, e.1 ≠ k := by
  intro l
  induction l with
  | nil => simp [findEntry]
  | cons hd t ih =>
    obtain ⟨k', v'⟩ := hd
    unfold findEntry
    split_ifs with h1
    · subst h1
      simp
    · rw [ih]
      constructor
      · intro h e he
        rcases List.mem_cons.mp he with rfl | he'
        · exact h1
        · exact h e he'
      · intro h e he
        exact h e (List.mem_cons_of_mem _ he)

theorem findEntry_assignEntry_same (k : Int) (v : Meeting) :
    ∀ (l : List (Int × Meeting)), findEntry k (assignEntry k v l) = some v := by
  intro l
  induction l with
  | nil => simp [assignEntry, findEntry]
  | cons hd t ih =>
    obtain ⟨k', v'⟩ := hd
    unfold assignEntry
    split_ifs with h1 h2
    · simp [findEntry]
    · simp [findEntry]
    · have hne : ¬ k' = k := fun h => h2 h.symm
      simp [findEntry, hne, ih]

theorem findEntry_assignEntry_other (k k' : Int) (v : Meeting) (hne : k ≠ k') :
    ∀ (l : List (Int × Meeting)), findEntry k' (assignEntry k v l) = findEntry k' l := by
  intro l
  induction l with
  | nil => simp [assignEntry, findEntry, hne]
  | cons hd t ih =>
    obtain ⟨k1, v1⟩ := hd
    unfold assignEntry
    split_ifs with h1 h2
    · simp [findEntry, hne]
    · subst h2
      simp [findEntry, hne]
    · by_cases h3 : k1 = k'
      · simp [findEntry, h3]
      · simp [findEntry, h3, ih]

theorem assignEntry_mem (k : Int) (v : Meeting) :
    ∀ (l : List (Int × Meeting)), ∀ e ∈ assignEntry k v l, e = (k, v) ∨ e ∈ l := by
  intro l
  induction l with
  | nil => intro e he; simp [assignEntry] at he; exact Or.inl he
  | cons hd t ih =>
    obtain ⟨k', v'⟩ := hd
    intro e he
    unfold assignEntry at he
    split_ifs at he with h1 h2
    · rcases List.mem_cons.mp he with rfl | he'
      · exact Or.inl rfl
      · exact Or.inr he'
    · rcases List.mem_cons.mp he with rfl | he'
      · exact Or.inl rfl
      · exact Or.inr (List.mem_cons_of_mem _ he')
    · rcases List.mem_cons.mp he with rfl | he'
      · exact Or.inr (List.mem_cons_self _ _)
      · rcases ih e he' with h | h
        · exact Or.inl h
        · exact Or.inr (List.mem_cons_of_mem _ h)

theorem assignEntry_append (k : Int) (v : Meeting) :
    ∀ (l : List (Int × Meeting)), (∀ e ∈ l, e.1 < k) → assignEntry k v l = l ++ [(k, v)] := by
  intro l
  induction l with
  | nil => intro _; simp [assignEntry]
  | cons hd t ih =>
    obtain ⟨k', v'⟩ := hd
    intro h
    have h0 : k' < k := h (k', v') (List.mem_cons_self _ _)
    have h1 : ¬ k < k' := by omega
    have h2 : ¬ k = k' := by omega
    unfold assignEntry
    simp only [h1, h2, if_false]
    rw [ih (fun e he => h e (List.mem_cons_of_mem _ he))]
    rfl

theorem findEntry_eraseEntry_same (k : Int) :
    ∀ (l : List (Int × Meeting)), KeysAscending l → findEntry k (eraseEntry k l) = none := by
  intro l
  induction l with
  | nil => intro _; simp [eraseEntry, findEntry]
  | cons hd t ih =>
    obtain ⟨k', v'⟩ := hd
    intro hl
    have hl' := List.pairwise_cons.mp hl
    unfold eraseEntry
    split_ifs with h1
    · subst h1
      rw [findEntry_eq_none]
      intro e he
      have := hl'.1 e he
      simp only at this
      omega
    · simp [findEntry, h1, ih hl'.2]

theorem eraseEntry_absent (k : Int) :
    ∀ (l : List (Int × Meeting)), findEntry k l = none → eraseEntry k l = l := by
  intro l
  induction l with
  | nil => intro _; simp [eraseEntry]
  | cons hd t ih =>
    obtain ⟨k', v'⟩ := hd
    intro h
    unfold findEntry at h
    split_ifs at h with h1
    unfold eraseEntry
    simp [h1, ih h]

/-! ## Facts about `MapStorage` -/

theorem MapStorage.Get_result (s : MapStorage) (id : Int) :
    (s.Get id).2 = findEntry id s.m_meetings.entries := by
  unfold MapStorage.Get MapStorage.MeetingInMap MeetingMap.contains MeetingMap.index
  cases h : findEntry id s.m_meetings.entries <;> simp

theorem MapStorage.Get_state (s : MapStorage) (id : Int) : (s.Get id).1 = s := by
  unfold MapStorage.Get MapStorage.MeetingInMap MeetingMap.contains MeetingMap.index
  cases h : findEntry id s.m_meetings.entries <;> simp

theorem MapStorage.Save_entries_none (s : MapStorage) (m : Meeting) (h : m.id = none) :
    (s.Save m).1.m_meetings.entries =
      assignEntry (narrowToInt s.m_meetings.size)
        { m with id := some (narrowToInt s.m_meetings.size) } s.m_meetings.entries ∧
    (s.Save m).2 = { m with id := some (narrowToInt s.m_meetings.size) } := by
  unfold MapStorage.Save
  rw [h]
  exact ⟨rfl, rfl⟩

theorem MapStorage.Save_entries_some (s : MapStorage) (m : Meeting) (k : Int)
    (h : m.id = some k) :
    (s.Save m).1.m_meetings.entries = assignEntry k m s.m_meetings.entries ∧
    (s.Save m).2 = m := by
  unfold MapStorage.Save
  rw [h]
  exact ⟨rfl, rfl⟩

theorem MapStorage.Delete_entries (s : MapStorage) (id : Int) :
    (s.Delete id).1.m_meetings.entries = eraseEntry id s.m_meetings.entries ∧
    (s.Delete id).2 = (findEntry id s.m_meetings.entries).isSome := by
  unfold MapStorage.Delete MapStorage.MeetingInMap MeetingMap.contains
  cases h : findEntry id s.m_meetings.entries
  · simp [eraseEntry_absent id _ h]
  · simp [MeetingMap.erase]

theorem MapOp.apply_idsMatch (s : MapStorage) (op : MapOp)
    (h : IdsMatch s.m_meetings.entries) : IdsMatch (op.apply s).m_meetings.entries := by
  cases op with
  | save meeting =>
    show IdsMatch (s.Save meeting).1.m_meetings.entries
    cases hid : meeting.id with
    | none =>
      rw [(MapStorage.Save_entries_none s meeting hid).1]
      intro e he
      rcases assignEntry_mem _ _ _ e he with rfl | he'
      · rfl
      · exact h e he'
    | some k =>
      rw [(MapStorage.Save_entries_some s meeting k hid).1]
      intro e he
      rcases assignEntry_mem _ _ _ e he with rfl | he'
      · exact hid
      · exact h e he'
  | delete id =>
    show IdsMatch (s.Delete id).1.m_meetings.entries
    rw [(MapStorage.Delete_entries s id).1]
    intro e he
    exact h e (eraseEntry_subset id _ e he)

theorem MapStorage.run_idsMatch (ops : List MapOp) :
    ∀ (s : MapStorage), IdsMatch s.m_meetings.entries →
      IdsMatch (s.run ops).m_meetings.entries := by
  induction ops with
  | nil => intro s h; exact h
  | cons op rest ih =>
    intro s h
    show IdsMatch (MapStorage.run (op.apply s) rest).m_meetings.entries
    exact ih _ (MapOp.apply_idsMatch s op h)

/-! ## The claims on `MapStorage` -/

/-- C1: for every `MapStorage` state and every meeting without an id, after
`Save` the meeting has an id, `Get` of that id on the new state returns
exactly the meeting as it stands after `Save` (the same id, name, description,
address and published flag), and `Save` has changed none of the four data
fields. -/
theorem MapStorage_Save_Get_roundtrip (s : MapStorage) (m : Meeting) (h : m.id = none) :
    ∃ id : Int, (s.Save m).2.id = some id ∧
      ((s.Save m).1.Get id).2 = some (s.Save m).2 ∧
      (s.Save m).2.name = m.name ∧ (s.Save m).2.description = m.description ∧
      (s.Save m).2.address = m.address ∧ (s.Save m).2.published = m.published := by
  obtain ⟨he, hm⟩ := MapStorage.Save_entries_none s m h
  refine ⟨narrowToInt s.m_meetings.size, ?_, ?_, ?_, ?_, ?_, ?_⟩
  · rw [hm]
  · rw [MapStorage.Get_result, he, hm]
    exact findEntry_assignEntry_same _ _ _
  · rw [hm]
  · rw [hm]
  · rw [hm]
  · rw [hm]

/-- Witness of C1: `kickoff` saved into a store that already holds `retro`. -/
theorem MapStorage_Save_Get_roundtrip_witness :
    kickoff.id = none ∧
    ∃ id : Int, ((MapStorage.empty.Save retro).1.Save kickoff).2.id = some id ∧
      (((MapStorage.empty.Save retro).1.Save kickoff).1.Get id).2 =
        some ((MapStorage.empty.Save retro).1.Save kickoff).2 ∧
      ((MapStorage.empty.Save retro).1.Save kickoff).2.name = kickoff.name ∧
      ((MapStorage.empty.Save retro).1.Save kickoff).2.description = kickoff.description ∧
      ((MapStorage.empty.Save retro).1.Save kickoff).2.address = kickoff.address ∧
      ((MapStorage.empty.Save retro).1.Save kickoff).2.published = kickoff.published :=
  ⟨rfl, MapStorage_Save_Get_roundtrip (MapStorage.empty.Save retro).1 kickoff rfl⟩

/-- C6: for every `MapStorage` state and id, if `Delete` returns true then on
the new state `Get` of the id is absent and a second `Delete` returns false;
and if the id is not a key, `Get` is absent and `Delete` returns false and
leaves the state as it was. -/
theorem MapStorage_Delete_effective_idempotent (s : MapStorage) (id : Int) :
    ((s.Delete id).2 = true →
      ((s.Delete id).1.Get id).2 = none ∧ ((s.Delete id).1.Delete id).2 = false) ∧
    (id ∉ s.m_meetings.entries.map Prod.fst →
      (s.Get id).2 = none ∧ s.Delete id = (s, false)) := by
  constructor
  · intro _
    have hnone : findEntry id (s.Delete id).1.m_meetings.entries = none := by
      rw [(MapStorage.Delete_entries s id).1]
      exact findEntry_eraseEntry_same id _ s.m_meetings.ascending
    constructor
    · rw [MapStorage.Get_result, hnone]
    · rw [(MapStorage.Delete_entries _ id).2, hnone]
      rfl
  · intro hk
    have hnone : findEntry id s.m_meetings.entries = none := by
      rw [findEntry_eq_none]
      intro e he heq
      exact hk (List.mem_map.mpr ⟨e, he, heq⟩)
    constructor
    · rw [MapStorage.Get_result, hnone]
    · unfold MapStorage.Delete MapStorage.MeetingInMap MeetingMap.contains
      simp [hnone]

/-- Witness of C6: in the store holding `kickoff` under 0 and `retro` under 1,
`Delete(0)` returns true, and 7 is not a key. -/
theorem MapStorage_Delete_effective_idempotent_witness :
    (((MapStorage.saveAll MapStorage.empty [kickoff, retro]).1.Delete 0).2 = true ∧
      ((((MapStorage.saveAll MapStorage.empty [kickoff, retro]).1.Delete 0).1.Get 0).2 = none ∧
       (((MapStorage.saveAll MapStorage.empty [kickoff, retro]).1.Delete 0).1.Delete 0).2 = false)) ∧
    ((7 : Int) ∉ (MapStorage.saveAll MapStorage.empty [kickoff, retro]).1.m_meetings.entries.map
        Prod.fst ∧
      (((MapStorage.saveAll MapStorage.empty [kickoff, retro]).1.Get 7).2 = none ∧
       (MapStorage.saveAll MapStorage.empty [kickoff, retro]).1.Delete 7 =
        ((MapStorage.saveAll MapStorage.empty [kickoff, retro]).1, false))) :=
  ⟨⟨by decide,
    (MapStorage_Delete_effective_idempotent
      (MapStorage.saveAll MapStorage.empty [kickoff, retro]).1 0).1 (by decide)⟩,
   ⟨by decide,
    (MapStorage_Delete_effective_idempotent
      (MapStorage.saveAll MapStorage.empty [kickoff, retro]).1 7).2 (by decide)⟩⟩

/-- C10: in every `MapStorage` state reached from the empty store by any
sequence of `Save` (with or without id) and `Delete`, every entry stored under
a key has that key as its id; so a meeting returned by `Get(k)` has id `k`,
every meeting of `GetList()` has an id, and `to_json` succeeds on both. -/
theorem MapStorage_reads_carry_id (ops : List MapOp) :
    (∀ e ∈ (MapStorage.empty.run ops).m_meetings.entries, e.2.id = some e.1) ∧
    (∀ (k : Int) (m : Meeting), ((MapStorage.empty.run ops).Get k).2 = some m →
      m.id = some k ∧ ∃ j, to_json m = .ok j) ∧
    (∀ m ∈ (MapStorage.empty.run ops).GetList, m.id.isSome = true ∧ ∃ j, to_json m = .ok j) := by
  have hinv : IdsMatch (MapStorage.empty.run ops).m_meetings.entries :=
    MapStorage.run_idsMatch ops MapStorage.empty (by intro e he; cases he)
  have hjson : ∀ (m : Meeting) (k : Int), m.id = some k → ∃ j, to_json m = .ok j := by
    intro m k hk
    unfold to_json
    rw [hk]
    exact ⟨_, rfl⟩
  refine ⟨hinv, ?_, ?_⟩
  · intro k m hget
    rw [MapStorage.Get_result] at hget
    have hid : m.id = some k := hinv (k, m) (findEntry_mem k m _ hget)
    exact ⟨hid, hjson m k hid⟩
  · intro m hm
    unfold MapStorage.GetList at hm
    obtain ⟨e, he, rfl⟩ := List.mem_map.mp hm
    have hid := hinv e he
    exact ⟨by rw [hid]; rfl, hjson _ _ hid⟩

/-! ## Identity assignment without deletions -/

theorem stamped_length : ∀ (ms : List Meeting) (n : Nat), (stamped n ms).length = ms.length := by
  intro ms
  induction ms with
  | nil => intro n; rfl
  | cons m rest ih => intro n; simp [stamped, ih]

theorem stamped_keys_lower : ∀ (ms : List Meeting) (n : Nat),
    ∀ e ∈ stamped n ms, (n : Int) ≤ e.1 := by
  intro ms
  induction ms with
  | nil => intro n e he; simp [stamped] at he
  | cons m rest ih =>
    intro n e he
    unfold stamped at he
    rcases List.mem_cons.mp he with rfl | he'
    · exact le_refl _
    · have := ih (n + 1) e he'
      push_cast at this
      omega

theorem stamped_getElem? : ∀ (ms : List Meeting) (n k : Nat) (m : Meeting),
    ms[k]? = some m →
      ((stamped n ms).map Prod.snd)[k]? = some { m with id := some ((n + k : Nat) : Int) } ∧
      findEntry ((n + k : Nat) : Int) (stamped n ms) =
        some { m with id := some ((n + k : Nat) : Int) } := by
  intro ms
  induction ms with
  | nil => intro n k m h; simp at h
  | cons m0 rest ih =>
    intro n k m h
    cases k with
    | zero =>
      simp only [List.getElem?_cons_zero, Option.some.injEq] at h
      subst h
      simp [stamped, findEntry]
    | succ k =>
      simp only [List.getElem?_cons_succ] at h
      obtain ⟨h1, h2⟩ := ih (n + 1) k m h
      have hidx : n + (k + 1) = n + 1 + k := by omega
      have hne : ¬ ((n : Int) = ((n + 1 + k : Nat) : Int)) := by
        push_cast
        omega
      rw [hidx]
      constructor
      · simpa [stamped] using h1
      · unfold stamped findEntry
        rw [if_neg hne]
        exact h2

theorem stamped_ids_nodup : ∀ (ms : List Meeting) (n : Nat),
    ((stamped n ms).map (fun e => e.2.id)).Nodup := by
  intro ms
  induction ms with
  | nil => intro n; simp [stamped]
  | cons m rest ih =>
    intro n
    unfold stamped
    rw [List.map_cons, List.nodup_cons]
    refine ⟨?_, ih (n + 1)⟩
    intro hmem
    obtain ⟨e, he, heq⟩ := List.mem_map.mp hmem
    have hlow := stamped_keys_lower rest (n + 1) e he
    have hid : IdsMatch (stamped (n + 1) rest) := by
      clear hmem he heq hlow ih
      generalize n + 1 = c
      induction rest generalizing c with
      | nil => intro e he; simp [stamped] at he
      | cons m1 r1 ih1 =>
        intro e he
        unfold stamped at he
        rcases List.mem_cons.mp he with rfl | he'
        · rfl
        · exact ih1 (c + 1) e he'
    have h1 := hid e he
    simp only at heq
    rw [h1] at heq
    have h2 : e.1 = (n : Int) := Option.some.inj heq
    push_cast at hlow
    omega

theorem narrowToInt_of_lt (n : Nat) (h : n < 2147483648) : narrowToInt n = (n : Int) := by
  unfold narrowToInt
  have hmod : n % 4294967296 = n := Nat.mod_eq_of_lt (by omega)
  rw [hmod, if_pos h]

theorem MapStorage.saveAll_append : ∀ (as bs : List Meeting) (s : MapStorage),
    (MapStorage.saveAll s (as ++ bs)).1 =
        (MapStorage.saveAll (MapStorage.saveAll s as).1 bs).1 ∧
    (MapStorage.saveAll s (as ++ bs)).2 =
        (MapStorage.saveAll s as).2 ++ (MapStorage.saveAll (MapStorage.saveAll s as).1 bs).2 := by
  intro as
  induction as with
  | nil => intro bs s; exact ⟨rfl, rfl⟩
  | cons a rest ih =>
    intro bs s
    obtain ⟨h1, h2⟩ := ih bs (s.Save a).1
    constructor
    · show (MapStorage.saveAll (s.Save a).1 (rest ++ bs)).1 = _
      rw [h1]
      rfl
    · show (s.Save a).2 :: (MapStorage.saveAll (s.Save a).1 (rest ++ bs)).2 = _
      rw [h2]
      rfl

theorem MapStorage.saveAll_stamped : ∀ (ms : List Meeting) (s : MapStorage),
    (∀ m ∈ ms, m.id = none) → (∀ e ∈ s.m_meetings.entries, e.1 < (s.m_meetings.size : Int)) →
    s.m_meetings.size + ms.length ≤ 2147483648 →
      (MapStorage.saveAll s ms).1.m_meetings.entries =
        s.m_meetings.entries ++ stamped s.m_meetings.size ms ∧
      (MapStorage.saveAll s ms).2 = (stamped s.m_meetings.size ms).map Prod.snd := by
  intro ms
  induction ms with
  | nil => intro s _ _ _; simp [MapStorage.saveAll, stamped]
  | cons m rest ih =>
    intro s hids hkeys hlen
    have hlen' : s.m_meetings.size + (rest.length + 1) ≤ 2147483648 := by
      simpa using hlen
    obtain ⟨he, hm⟩ := MapStorage.Save_entries_none s m (hids m (List.mem_cons_self _ _))
    rw [narrowToInt_of_lt _ (by omega)] at he hm
    rw [assignEntry_append _ _ _ hkeys] at he
    have hsize : (s.Save m).1.m_meetings.size = s.m_meetings.size + 1 := by
      unfold MeetingMap.size
      rw [he]
      simp
    have hkeys' : ∀ e ∈ (s.Save m).1.m_meetings.entries,
        e.1 < ((s.Save m).1.m_meetings.size : Int) := by
      intro e hmem
      rw [hsize]
      rw [he] at hmem
      push_cast
      rcases List.mem_append.mp hmem with h1 | h1
      · have := hkeys e h1
        omega
      · simp only [List.mem_singleton] at h1
        subst h1
        simp
    obtain ⟨ih1, ih2⟩ := ih (s.Save m).1 (fun x hx => hids x (List.mem_cons_of_mem _ hx)) hkeys'
      (by rw [hsize]; omega)
    rw [hsize, he] at ih1
    rw [hsize] at ih2
    constructor
    · show (MapStorage.saveAll (s.Save m).1 rest).1.m_meetings.entries = _
      rw [ih1]
      simp [stamped]
    · show (s.Save m).2 :: (MapStorage.saveAll (s.Save m).1 rest).2 = _
      rw [ih2, hm]
      simp [stamped]

/-- C8 as stated fails on the code: of the `2^31 + 1` creates of
`overflowMeetings` into the empty store, the last one (number `2^31`, from 0)
finds `size() = 2^31`, which narrows to the `int` `-2^31`; the meeting is
assigned id `-2147483648`, not `2147483648`. -/
theorem MapStorage_saveAll_id_wraps_at_int_range :
    (∀ m ∈ overflowMeetings, m.id = none) ∧
    overflowMeetings.length = 2147483649 ∧
    overflowMeetings[2147483648]? = some kickoff ∧
    (MapStorage.saveAll MapStorage.empty overflowMeetings).2[2147483648]? =
      some { kickoff with id := some (-2147483648) } ∧
    (MapStorage.saveAll MapStorage.empty overflowMeetings).2[2147483648]? ≠
      some { kickoff with id := some ((2147483648 : Nat) : Int) } := by
  have hids : ∀ m ∈ List.replicate 2147483648 kickoff, m.id = none := by
    intro m hm
    rw [List.eq_of_mem_replicate hm]
    rfl
  have hlen : (List.replicate 2147483648 kickoff).length = 2147483648 :=
    List.length_replicate _ _
  obtain ⟨he, hm⟩ := MapStorage.saveAll_stamped (List.replicate 2147483648 kickoff)
    MapStorage.empty hids (by intro e he; cases he)
    (by
      have hsz : MapStorage.empty.m_meetings.size = 0 := rfl
      rw [hsz, hlen])
  have hsz : MapStorage.empty.m_meetings.size = 0 := rfl
  have hnil : MapStorage.empty.m_meetings.entries = [] := rfl
  rw [hsz, hnil, List.nil_append] at he
  rw [hsz] at hm
  have hsize : (MapStorage.saveAll MapStorage.empty
      (List.replicate 2147483648 kickoff)).1.m_meetings.size = 2147483648 := by
    unfold MeetingMap.size
    rw [he, stamped_length, hlen]
  have hout : (MapStorage.saveAll MapStorage.empty
      (List.replicate 2147483648 kickoff)).2.length = 2147483648 := by
    rw [hm, List.length_map, stamped_length, hlen]
  have hnarrow : narrowToInt 2147483648 = -2147483648 := by decide
  have hlast : (MapStorage.saveAll MapStorage.empty overflowMeetings).2[2147483648]? =
      some { kickoff with id := some (-2147483648) } := by
    unfold overflowMeetings
    rw [(MapStorage.saveAll_append _ _ _).2]
    rw [List.getElem?_append_right (by rw [hout])]
    rw [hout, Nat.sub_self]
    show some ((MapStorage.saveAll MapStorage.empty
      (List.replicate 2147483648 kickoff)).1.Save kickoff).2 = _
    rw [(MapStorage.Save_entries_none _ kickoff rfl).2, hsize, hnarrow]
  refine ⟨?_, ?_, ?_, hlast, ?_⟩
  · intro m hmem
    unfold overflowMeetings at hmem
    rcases List.mem_append.mp hmem with h1 | h1
    · exact hids m h1
    · rw [List.mem_singleton.mp h1]
      rfl
  · unfold overflowMeetings
    rw [List.length_append, hlen]
    rfl
  · unfold overflowMeetings
    rw [List.getElem?_append_right (by rw [hlen]), hlen, Nat.sub_self]
    rfl
  · rw [hlast]
    intro hcontra
    have hid := congrArg Meeting.id (Option.some.inj hcontra)
    simp only at hid
    have := Option.some.inj hid
    omega

/-- C8, amended: starting from the empty `MapStorage`, after any sequence of
at most `2^31` `Save` calls on id-less meetings (no `Delete`, no `Save` with
an id), the call number `k` (from 0) has assigned id `k` and changed nothing
else, the assigned ids are pairwise distinct, and `Get(k)` on the final state
returns the meeting of call `k` with its own field values and id `k`. -/
theorem MapStorage_saveAll_assigns_positions (ms : List Meeting)
    (h : ∀ m ∈ ms, m.id = none) (hlen : ms.length ≤ 2147483648) :
    (MapStorage.saveAll MapStorage.empty ms).2.length = ms.length ∧
    (∀ (k : Nat) (m : Meeting), ms[k]? = some m →
      (MapStorage.saveAll MapStorage.empty ms).2[k]? = some { m with id := some (k : Int) } ∧
      ((MapStorage.saveAll MapStorage.empty ms).1.Get (k : Int)).2 =
        some { m with id := some (k : Int) }) ∧
    ((MapStorage.saveAll MapStorage.empty ms).2.map Meeting.id).Nodup ∧
    (MapStorage.saveAll MapStorage.empty ms).1.m_meetings.size = ms.length := by
  have hsz : MapStorage.empty.m_meetings.size = 0 := rfl
  have hnil : MapStorage.empty.m_meetings.entries = [] := rfl
  obtain ⟨he, hm⟩ := MapStorage.saveAll_stamped ms MapStorage.empty h
    (by intro e he; cases he) (by rw [hsz]; omega)
  rw [hsz, hnil, List.nil_append] at he
  rw [hsz] at hm
  refine ⟨?_, ?_, ?_, ?_⟩
  · rw [hm, List.length_map, stamped_length]
  · intro k m hk
    obtain ⟨h1, h2⟩ := stamped_getElem? ms 0 k m hk
    rw [Nat.zero_add] at h1 h2
    constructor
    · rw [hm]
      exact h1
    · rw [MapStorage.Get_result, he]
      exact h2
  · rw [hm, List.map_map]
    exact stamped_ids_nodup ms 0
  · unfold MeetingMap.size
    rw [he, stamped_length]

/-- Witness of C8: three creates in a row. -/
theorem MapStorage_saveAll_assigns_positions_witness :
    (∀ m ∈ [kickoff, retro, planning], m.id = none) ∧
    [kickoff, retro, planning].length ≤ 2147483648 ∧
    ((MapStorage.saveAll MapStorage.empty [kickoff, retro, planning]).2.length =
        [kickoff, retro, planning].length ∧
    (∀ (k : Nat) (m : Meeting), [kickoff, retro, planning][k]? = some m →
      (MapStorage.saveAll MapStorage.empty [kickoff, retro, planning]).2[k]? =
        some { m with id := some (k : Int) } ∧
      ((MapStorage.saveAll MapStorage.empty [kickoff, retro, planning]).1.Get (k : Int)).2 =
        some { m with id := some (k : Int) }) ∧
    ((MapStorage.saveAll MapStorage.empty [kickoff, retro, planning]).2.map Meeting.id).Nodup ∧
    (MapStorage.saveAll MapStorage.empty [kickoff, retro, planning]).1.m_meetings.size =
      [kickoff, retro, planning].length) :=
  ⟨by decide, by decide,
    MapStorage_saveAll_assigns_positions [kickoff, retro, planning] (by decide) (by decide)⟩

/-! ## Identity assignment after a deletion, and the size of `GetList` -/

/-- C9: create `kickoff` and `retro` (ids 0 and 1), delete id 0, create
`planning`.  The last create is assigned id 1, the key of the surviving
`retro`; before it `Get(1)` returns `retro`, after it `Get(1)` returns
`planning` and `retro` is in the store no more; the store holds one record,
fewer than the two that three creates and one delete should leave. -/
theorem MapStorage_id_collision_after_delete :
    (MapStorage.saveAll MapStorage.empty [kickoff, retro]).2 =
      [{ kickoff with id := some 0 }, { retro with id := some 1 }] ∧
    ((MapStorage.saveAll MapStorage.empty [kickoff, retro]).1.Delete 0).2 = true ∧
    (((MapStorage.saveAll MapStorage.empty [kickoff, retro]).1.Delete 0).1.Get 1).2 =
      some { retro with id := some 1 } ∧
    ((((MapStorage.saveAll MapStorage.empty [kickoff, retro]).1.Delete 0).1.Save planning).2).id =
      some 1 ∧
    (((((MapStorage.saveAll MapStorage.empty [kickoff, retro]).1.Delete 0).1.Save planning).1).Get
        1).2 = some { planning with id := some 1 } ∧
    { retro with id := some 1 } ∉
      ((((MapStorage.saveAll MapStorage.empty [kickoff, retro]).1.Delete 0).1.Save planning).1).GetList ∧
    ((((MapStorage.saveAll MapStorage.empty [kickoff, retro]).1.Delete 0).1.Save planning).1).m_meetings.size
      = 1 ∧
    ((((MapStorage.saveAll MapStorage.empty [kickoff, retro]).1.Delete 0).1.Save planning).1).m_meetings.size
      < 3 - 1 := by
  decide

/-- C2 on the code: `MapStorage::GetList` has no cap.  After the sixty id-less,
pairwise different meetings of `sixtyMeetings` are saved into the empty store,
`GetList()` returns all sixty, which is more than fifty. -/
theorem MapStorage_GetList_returns_sixty :
    sixtyMeetings.length = 60 ∧ sixtyMeetings.Nodup ∧ (∀ m ∈ sixtyMeetings, m.id = none) ∧
    ((MapStorage.saveAll MapStorage.empty sixtyMeetings).1.GetList).length = 60 ∧
    ¬ ((MapStorage.saveAll MapStorage.empty sixtyMeetings).1.GetList).length ≤ 50 := by
  decide

/-! ## `SqliteStorage` and the create handler on the code -/

/-- C3 on the code: when `SqliteStorage::Save` of a meeting without an id
returns without raising, the meeting is as it went in; its id is still
absent. -/
theorem SqliteStorage_Save_leaves_id_absent (s : SqliteStorage) (m : Meeting)
    (r : SqliteStorage × Meeting) (h : m.id = none) (hs : s.Save m = .ok r) :
    r.2 = m ∧ r.2.id = none := by
  unfold SqliteStorage.Save at hs
  rw [h] at hs
  simp only at hs
  split at hs
  · cases hs
    exact ⟨rfl, h⟩
  · cases hs

/-- Witness of C3: `kickoff` is inserted into the fresh table as row 1, and
comes back without an id. -/
theorem SqliteStorage_Save_leaves_id_absent_witness :
    kickoff.id = none ∧
    SqliteStorage.Save ⟨Session.fresh⟩ kickoff = .ok (oneRowStorage, kickoff) ∧
    ((oneRowStorage, kickoff).2 = kickoff ∧ (oneRowStorage, kickoff).2.id = none) :=
  ⟨rfl, rfl,
    SqliteStorage_Save_leaves_id_absent ⟨Session.fresh⟩ kickoff (oneRowStorage, kickoff) rfl rfl⟩

/-- C5 on the code: `SqliteStorage::Get` returns absent in every state and for
every id; in `oneRowStorage` the statement extracts the row with id 1 and
`Get(1)` is absent all the same. -/
theorem SqliteStorage_Get_always_absent :
    oneRowStorage.m_session.select 1 = [⟨1, "Kickoff", "intro", "HQ", false⟩] ∧
    oneRowStorage.Get 1 = none ∧
    ∀ (s : SqliteStorage) (id : Int), s.Get id = none := by
  have hall : ∀ (s : SqliteStorage) (id : Int), s.Get id = none := by
    intro s id
    unfold SqliteStorage.Get
    cases s.m_session.select 1 <;> simp [Meeting.zero]
  exact ⟨rfl, hall _ _, hall⟩

/-- C4 on the code: `SqliteStorage::Delete` returns false in every state and
for every id and leaves the table as it was; in `oneRowStorage` a row with
id 1 exists and `Delete(1)` returns false and keeps the row. -/
theorem SqliteStorage_Delete_always_false :
    (∃ r ∈ oneRowStorage.m_session.rows, r.id = 1) ∧
    oneRowStorage.Delete 1 = (oneRowStorage, false) ∧
    ∀ (s : SqliteStorage) (id : Int), s.Delete id = (s, false) := by
  have hget : ∀ (s : SqliteStorage) (id : Int), s.Get id = none := by
    intro s id
    unfold SqliteStorage.Get
    cases s.m_session.select 1 <;> simp [Meeting.zero]
  have hall : ∀ (s : SqliteStorage) (id : Int), s.Delete id = (s, false) := by
    intro s id
    unfold SqliteStorage.Delete
    rw [hget]
    rfl
  exact ⟨⟨_, List.mem_cons_self _ _, rfl⟩, hall _ _, hall⟩

/-- C7 on the code: for every body that decodes to a meeting and every storage
whose `Save` raises on it, `UserMeetingCreate::HandleRestRequest` ends with
status `201 Created` set and sent, not `400 Bad Request`. -/
theorem UserMeetingCreate_failed_Save_gives_created {σ : Type} (Save : StorageSave σ)
    (storage : σ) (j : Json) (meeting : Meeting) (exc : PocoException)
    (response : HTTPServerResponse)
    (hj : j.toMeeting = .ok meeting) (hs : Save storage meeting = .error exc) :
    (UserMeetingCreate.HandleRestRequest Save storage j response).response.status =
      .HTTP_CREATED ∧
    (UserMeetingCreate.HandleRestRequest Save storage j response).response.sent =
      some .HTTP_CREATED := by
  unfold UserMeetingCreate.HandleRestRequest
  rw [hj]
  simp only [hs]
  cases to_json meeting <;>
    simp [HTTPServerResponse.setStatusAndReason, HTTPServerResponse.send,
      HTTPServerResponse.write]

/-- Witness of C7: posting `kickoffJson` when the table already holds a row
named `Kickoff`; the insert is refused and the response is `201 Created`. -/
theorem UserMeetingCreate_failed_Save_gives_created_witness :
    kickoffJson.toMeeting = .ok kickoff ∧
    SqliteStorage.asSave oneRowStorage kickoff =
      .error ⟨"UNIQUE constraint failed: meeting.name"⟩ ∧
    ((UserMeetingCreate.HandleRestRequest SqliteStorage.asSave oneRowStorage kickoffJson
        HTTPServerResponse.fresh).response.status = .HTTP_CREATED ∧
     (UserMeetingCreate.HandleRestRequest SqliteStorage.asSave oneRowStorage kickoffJson
        HTTPServerResponse.fresh).response.sent = some .HTTP_CREATED) :=
  ⟨rfl, rfl,
    UserMeetingCreate_failed_Save_gives_created SqliteStorage.asSave oneRowStorage kickoffJson
      kickoff ⟨"UNIQUE constraint failed: meeting.name"⟩ HTTPServerResponse.fresh rfl rfl⟩

end handlers
